import Mathlib

/-! ### Verification of the Karawang tourism scraper's processing core

A shallow embedding, in Lean 4, of the pure processing logic of the
repository's three Python scripts:

* `src/process_gmaps_data.py` — text cleaning (`clean_text`), user
  anonymization (`anonymize_user`, MD5-based), relative-time resolution
  (`convert_relative_time`), deduplication/enrichment
  (`deduplicate_reviews`) and stratified sampling
  (`stratified_sample_reviews`);
* `src/gmaps_reviews_scraper.py` — the scroll-harvesting loop
  (`scroll_reviews_panel`) and the JS review extractor
  (`extract_reviews_with_js`).

Python strings are modelled as Lean `String`/`List Char`; `str` helpers
(`strip`, `lower`, `in`, `re` digit search, `\s+` collapse) are modelled on
their ASCII fragment, which is the fragment the scripts' data exercises.
Machine-word arithmetic inside MD5 is `Nat` with explicit `% 2^32`.
Impure inputs are made explicit parameters: `datetime.now()` becomes a
`now : Nat` argument (seconds since 0001-01-01 00:00, Python's
`datetime.min`), and `random.shuffle` becomes an injected shuffle oracle,
one index per call site, constrained to produce permutations.
-/

set_option maxRecDepth 100000

namespace KarawangScraper

/-! ## Python string primitives (ASCII fragment) -/

/-- Whitespace recognised by Python's `str.strip` / `\s` on ASCII input:
space, tab, newline, carriage return, vertical tab, form feed. -/
def pyWhitespace (c : Char) : Bool :=
  c.toNat = 32 || c.toNat = 9 || c.toNat = 10 || c.toNat = 13 ||
  c.toNat = 11 || c.toNat = 12

/-- `str.strip()`: drop leading and trailing whitespace. -/
def trimChars (l : List Char) : List Char :=
  ((l.dropWhile pyWhitespace).reverse.dropWhile pyWhitespace).reverse

/-- Scanner of `str.replace(pat, "")`, structurally recursive on a fuel
bounding the scanned length (each step shortens the list, so
`fuel = s.length` never runs out; the `0` case is a dead guard). -/
def replaceAllAux (pat : List Char) : Nat → List Char → List Char
  | _, [] => []
  | 0, s => s
  | fuel + 1, c :: rest =>
    if pat.isPrefixOf (c :: rest) then replaceAllAux pat fuel ((c :: rest).drop pat.length)
    else c :: replaceAllAux pat fuel rest

/-- `str.replace(pat, "")`: remove every (non-overlapping, left-to-right)
occurrence of `pat`.  Python's `replace` with an empty pattern and empty
replacement is the identity, matched by the `pat.isEmpty` guard. -/
def replaceAll (pat : List Char) (s : List Char) : List Char :=
  if pat.isEmpty then s else replaceAllAux pat s.length s

/-- Python's `x in s` substring test. -/
def containsSub (pat : List Char) : List Char → Bool
  | [] => pat.isEmpty
  | c :: rest => pat.isPrefixOf (c :: rest) || containsSub pat rest

/-- Scanner of `re.sub(r'\s+', ' ', s)`, fuel-structural like
`replaceAllAux`. -/
def squashWSAux : Nat → List Char → List Char
  | _, [] => []
  | 0, s => s
  | fuel + 1, c :: rest =>
    if pyWhitespace c then ' ' :: squashWSAux fuel (rest.dropWhile pyWhitespace)
    else c :: squashWSAux fuel rest

/-- `re.sub(r'\s+', ' ', s)`: collapse each maximal whitespace run to one
space. -/
def squashWS (l : List Char) : List Char := squashWSAux l.length l

/-- First maximal digit run in the text, as a number (`re.search(r'(\d+)')`
followed by `int`), `none` when the text has no digit. -/
def firstNum : List Char → Option Nat
  | [] => none
  | c :: rest =>
    if c.isDigit then
      some ((c :: rest.takeWhile Char.isDigit).foldl (fun a d => 10 * a + (d.toNat - 48)) 0)
    else firstNum rest

/-! ## `clean_text` (process_gmaps_data.py, lines 61–84) -/

/-- The artifact substrings stripped by `clean_text`; the source list holds
`"Óóä"`, `"¬†"` and three empty strings (no-op replaces). -/
def artifacts : List (List Char) := [['Ó', 'ó', 'ä'], ['¬', '†'], [], [], []]

/-- `clean_text`: remove artifacts, collapse whitespace, strip. -/
def clean_text (text : String) : String :=
  ⟨trimChars (squashWS (artifacts.foldl (fun s pat => replaceAll pat s) text.data))⟩

/-! ## MD5 (the `hashlib.md5` dependency of `anonymize_user`) -/

/-- Per-round left-rotation amounts of MD5. -/
def md5S : List Nat :=
  [7, 12, 17, 22, 7, 12, 17, 22, 7, 12, 17, 22, 7, 12, 17, 22,
   5, 9, 14, 20, 5, 9, 14, 20, 5, 9, 14, 20, 5, 9, 14, 20,
   4, 11, 16, 23, 4, 11, 16, 23, 4, 11, 16, 23, 4, 11, 16, 23,
   6, 10, 15, 21, 6, 10, 15, 21, 6, 10, 15, 21, 6, 10, 15, 21]

/-- MD5 round constants `⌊|sin(i+1)|·2^32⌋`. -/
def md5K : List Nat :=
  [3614090360, 3905402710, 606105819, 3250441966, 4118548399, 1200080426, 2821735955, 4249261313,
   1770035416, 2336552879, 4294925233, 2304563134, 1804603682, 4254626195, 2792965006, 1236535329,
   4129170786, 3225465664, 643717713, 3921069994, 3593408605, 38016083, 3634488961, 3889429448,
   568446438, 3275163606, 4107603335, 1163531501, 2850285829, 4243563512, 1735328473, 2368359562,
   4294588738, 2272392833, 1839030562, 4259657740, 2763975236, 1272893353, 4139469664, 3200236656,
   681279174, 3936430074, 3572445317, 76029189, 3654602809, 3873151461, 530742520, 3299628645,
   4096336452, 1126891415, 2878612391, 4237533241, 1700485571, 2399980690, 4293915773, 2240044497,
   1873313359, 4264355552, 2734768916, 1309151649, 4149444226, 3174756917, 718787259, 3951481745]

def add32 (a b : Nat) : Nat := (a + b) % 4294967296

def not32 (a : Nat) : Nat := a ^^^ 4294967295

def rotl32 (x s : Nat) : Nat := ((x <<< s) ||| (x >>> (32 - s))) % 4294967296

/-- MD5 padding: `0x80`, zeros to 56 mod 64, 8-byte little-endian bit
length. -/
def md5Pad (msg : List Nat) : List Nat :=
  let len := msg.length
  msg ++ 128 :: List.replicate ((119 - len % 64) % 64) 0
      ++ (List.range 8).map (fun i => (len * 8) >>> (8 * i) % 256)

/-- Split a byte list into 64-byte chunks (fuel-structural; the fuel
bounds the number of chunks). -/
def chunks64Aux : Nat → List Nat → List (List Nat)
  | _, [] => []
  | 0, _ => []
  | fuel + 1, x :: rest => (x :: rest).take 64 :: chunks64Aux fuel ((x :: rest).drop 64)

/-- Split a byte list into 64-byte chunks. -/
def chunks64 (l : List Nat) : List (List Nat) := chunks64Aux l.length l

structure MD5State where
  a : Nat
  b : Nat
  c : Nat
  d : Nat
deriving Repr, DecidableEq

/-- Little-endian 32-bit word `j` of a 64-byte chunk. -/
def leWord (bs : List Nat) (j : Nat) : Nat :=
  bs.getD (4 * j) 0 + 256 * bs.getD (4 * j + 1) 0 +
    65536 * bs.getD (4 * j + 2) 0 + 16777216 * bs.getD (4 * j + 3) 0

/-- One of the 64 MD5 rounds. -/
def md5Round (w : Nat → Nat) (st : MD5State) (i : Nat) : MD5State :=
  let f :=
    if i < 16 then (st.b &&& st.c) ||| (not32 st.b &&& st.d)
    else if i < 32 then (st.d &&& st.b) ||| (not32 st.d &&& st.c)
    else if i < 48 then st.b ^^^ st.c ^^^ st.d
    else st.c ^^^ (st.b ||| not32 st.d)
  let g :=
    if i < 16 then i
    else if i < 32 then (5 * i + 1) % 16
    else if i < 48 then (3 * i + 5) % 16
    else (7 * i) % 16
  let tmp := add32 (add32 (add32 st.a f) (md5K.getD i 0)) (w g)
  ⟨st.d, add32 st.b (rotl32 tmp (md5S.getD i 0)), st.b, st.c⟩

/-- Process one 64-byte chunk. -/
def md5Chunk (st0 : MD5State) (chunk : List Nat) : MD5State :=
  let st := (List.range 64).foldl (md5Round (leWord chunk)) st0
  ⟨add32 st0.a st.a, add32 st0.b st.b, add32 st0.c st.c, add32 st0.d st.d⟩

/-- A 32-bit word as 4 little-endian bytes. -/
def wordLE (x : Nat) : List Nat :=
  [x % 256, x / 256 % 256, x / 65536 % 256, x / 16777216 % 256]

/-- MD5 digest (16 bytes) of a byte string. -/
def md5Bytes (msg : List Nat) : List Nat :=
  let st := (chunks64 (md5Pad msg)).foldl md5Chunk
    ⟨1732584193, 4023233417, 2562383102, 271733878⟩
  wordLE st.a ++ wordLE st.b ++ wordLE st.c ++ wordLE st.d

def hexDigitChar (n : Nat) : Char :=
  if n < 10 then Char.ofNat (48 + n) else Char.ofNat (87 + n)

def byteHex (b : Nat) : List Char := [hexDigitChar (b / 16), hexDigitChar (b % 16)]

/-- `hexdigest()`: lowercase hex characters of the digest. -/
def md5HexChars (msg : List Nat) : List Char := ((md5Bytes msg).map byteHex).flatten

/-- UTF-8 bytes of one character (`str.encode('utf-8')`). -/
def utf8Char (c : Char) : List Nat :=
  let n := c.toNat
  if n < 128 then [n]
  else if n < 2048 then [192 ||| (n >>> 6), 128 ||| (n &&& 63)]
  else if n < 65536 then
    [224 ||| (n >>> 12), 128 ||| ((n >>> 6) &&& 63), 128 ||| (n &&& 63)]
  else
    [240 ||| (n >>> 18), 128 ||| ((n >>> 12) &&& 63),
     128 ||| ((n >>> 6) &&& 63), 128 ||| (n &&& 63)]

def strUtf8 (s : List Char) : List Nat := (s.map utf8Char).flatten

/-! ## `anonymize_user` (process_gmaps_data.py, lines 116–132) -/

/-- ASCII `str.lower`. -/
def pyLower (c : Char) : Char :=
  if 65 ≤ c.toNat ∧ c.toNat ≤ 90 then Char.ofNat (c.toNat + 32) else c

/-- `anonymize_user`: `"anonymous"` for the empty name, otherwise the first
10 hex characters of `md5(name.strip().lower())`. -/
def anonymize_user (user_name : String) : String :=
  if user_name = "" then "anonymous"
  else ⟨(md5HexChars (strUtf8 ((trimChars user_name.data).map pyLower))).take 10⟩

/-! ## Calendar formatting (`strftime("%Y-%m-%d")`)

The `datetime` value is modelled as seconds since 0001-01-01 00:00:00
(Python's `datetime.min`), proleptic Gregorian. -/

def isLeapYear (y : Nat) : Bool := y % 4 == 0 && (y % 100 != 0 || y % 400 == 0)

def monthDays (leap : Bool) : List Nat :=
  [31, if leap then 29 else 28, 31, 30, 31, 30, 31, 31, 30, 31, 30, 31]

/-- Walk the month lengths to turn a 0-based day-of-year into a (month,
day-of-month) pair, both 1-based. -/
def monthFromDoy : List Nat → Nat → Nat → Nat × Nat
  | [], doy, m => (m, doy + 1)
  | len :: rest, doy, m =>
    if doy < len then (m, doy + 1) else monthFromDoy rest (doy - len) (m + 1)

/-- Civil date from a 0-based count of days since 0001-01-01. -/
def ymdFromDays (n : Nat) : Nat × Nat × Nat :=
  let n400 := n / 146097
  let r1 := n % 146097
  let n100 := min 3 (r1 / 36524)
  let r2 := r1 - n100 * 36524
  let n4 := r2 / 1461
  let r3 := r2 % 1461
  let n1 := min 3 (r3 / 365)
  let doy := r3 - n1 * 365
  let y := 400 * n400 + 100 * n100 + 4 * n4 + n1 + 1
  let md := monthFromDoy (monthDays (isLeapYear y)) doy 1
  (y, md.1, md.2)

/-- Zero-padded decimal numeral of width (at least) `width`. -/
def padNum (width n : Nat) : List Char :=
  let s := Nat.toDigits 10 n
  List.replicate (width - s.length) '0' ++ s

/-- `strftime("%Y-%m-%d")` for a timestamp in seconds since 0001-01-01. -/
def formatYMD (secs : Nat) : String :=
  let ymd := ymdFromDays (secs / 86400)
  ⟨padNum 4 ymd.1 ++ '-' :: padNum 2 ymd.2.1 ++ '-' :: padNum 2 ymd.2.2⟩

/-! ## `convert_relative_time` (process_gmaps_data.py, lines 136–199)

`datetime.now()` is injected as the `now` parameter.  Python's `timedelta`
raises `OverflowError` past 999 999 999 days and `datetime` subtraction
raises below `datetime.min`; both are caught by the function's
`except Exception: return ""` and are modelled by the `none` / underflow
branches below. -/

def tdMaxDays : Nat := 999999999

/-- Delta, in seconds, read from the already lowercased/stripped text;
`none` models an `OverflowError` building the `timedelta`. -/
def relativeDeltaSecs (t : List Char) : Option Nat :=
  if containsSub "menit".data t || containsSub "detik".data t ||
      containsSub "baru saja".data t then some 0
  else if containsSub "jam".data t then
    let h := (firstNum t).getD 1
    if h * 3600 / 86400 ≤ tdMaxDays then some (h * 3600) else none
  else if containsSub "hari".data t then
    let d := (firstNum t).getD 1
    if d ≤ tdMaxDays then some (d * 86400) else none
  else if containsSub "minggu".data t then
    let w := (firstNum t).getD 1
    if 7 * w ≤ tdMaxDays then some (w * 604800) else none
  else if containsSub "bulan".data t then
    let m := (firstNum t).getD 1
    if m * 30 ≤ tdMaxDays then some (m * 2592000) else none
  else if containsSub "tahun".data t then
    let y := (firstNum t).getD 1
    if y * 365 ≤ tdMaxDays then some (y * 31536000) else none
  else some 0

/-- The preprocessing of line 156: lowercase, drop the `"diedit"` editing
marker, strip. -/
def processedTime (text : String) : List Char :=
  trimChars (replaceAll "diedit".data (text.data.map pyLower))

/-- Whether the processed text mentions any of the recognised Indonesian
unit keywords. -/
def hasUnitKeyword (t : List Char) : Bool :=
  containsSub "menit".data t || containsSub "detik".data t ||
  containsSub "baru saja".data t || containsSub "jam".data t ||
  containsSub "hari".data t || containsSub "minggu".data t ||
  containsSub "bulan".data t || containsSub "tahun".data t

/-- `convert_relative_time`: empty string for empty input; otherwise
lowercase, drop the `"diedit"` editing marker, strip, read a unit keyword
and magnitude, and format `now - delta` as `YYYY-MM-DD`.  Every parsing
exception yields `""`. -/
def convert_relative_time (text : String) (now : Nat) : String :=
  if text = "" then ""
  else
    match relativeDeltaSecs (processedTime text) with
    | none => ""
    | some secs => if secs ≤ now then formatYMD (now - secs) else ""

/-! ## Review records

A review dictionary: the raw fields written by the extractor plus the
enrichment fields written by `deduplicate_reviews` (absent keys are the
empty string / 0 defaults used by the `dict.get` call sites). -/

structure Review where
  user_name : String := ""
  rating : Int := 0
  text : String := ""
  time : String := ""
  clean_user_id : String := ""
  clean_text : String := ""
  clean_time_iso : String := ""
deriving Repr, DecidableEq

/-! ## `deduplicate_reviews` (process_gmaps_data.py, lines 220–259) -/

/-- The enrichment performed on a review that passed the uniqueness check
(lines 250–255): anonymized id of the cleaned name, cleaned text, resolved
date of the cleaned time text. -/
def enrichReview (now : Nat) (r : Review) : Review :=
  { r with
    clean_user_id := anonymize_user (clean_text r.user_name)
    clean_text := clean_text r.text
    clean_time_iso := convert_relative_time (clean_text r.time) now }

/-- The loop of `deduplicate_reviews`, with the `seen_signatures` set
explicit (membership is all the set is used for, so a list model is
faithful). -/
def dedupGo (now : Nat) : List Review → List (String × String) → List Review
  | [], _ => []
  | r :: rest, seen =>
    let u := clean_text r.user_name
    let t := clean_text r.text
    if t = "" then dedupGo now rest seen
    else if (u, t) ∈ seen then dedupGo now rest seen
    else enrichReview now r :: dedupGo now rest ((u, t) :: seen)

/-- `deduplicate_reviews`, with `datetime.now()` (reached through
`convert_relative_time`) injected as `now`. -/
def deduplicate_reviews (raw_reviews : List Review) (now : Nat) : List Review :=
  dedupGo now raw_reviews []

/-- The deduplication signature of an output record: cleaned author name
and cleaned text (the latter is stored in the record by enrichment). -/
def dedupKey (r : Review) : String × String := (clean_text r.user_name, r.clean_text)

/-- The `signature` computed from a raw record inside the loop (line 245):
cleaned author name, cleaned raw text. -/
def rawKey (r : Review) : String × String := (clean_text r.user_name, clean_text r.text)

/-! ## `stratified_sample_reviews` (process_gmaps_data.py, lines 262–328) -/

/-- The bucket key of a review: its integer rating when in 0..5, else 0
(lines 287–296). -/
def bucketOf (r : Review) : Nat :=
  if 0 ≤ r.rating ∧ r.rating ≤ 5 then r.rating.toNat else 0

/-- The `buckets[k]` list built by the grouping loop (lines 285–296):
appending in iteration order makes bucket `k` the in-order filter of the
input. -/
def ratingBucket (reviews : List Review) (k : Nat) : List Review :=
  reviews.filter (fun r => bucketOf r == k)

/-- `stratified_sample_reviews`.  `random.shuffle` is injected as `sh`,
indexed by call site in program order: 1–5 the rating buckets, 6 the
overflow pool, 7 the final result; theorems constrain each `sh i` to
permute its input. -/
def stratified_sample_reviews (sh : Nat → List Review → List Review)
    (reviews : List Review) (max_count : Nat) : List Review :=
  if reviews.length ≤ max_count then reviews
  else
    let target_per_star := max_count / 5
    let taken := fun k => (sh k (ratingBucket reviews k)).take target_per_star
    let over := fun k => (sh k (ratingBucket reviews k)).drop target_per_star
    let sampled := taken 1 ++ taken 2 ++ taken 3 ++ taken 4 ++ taken 5
    let overflow_pool := over 1 ++ over 2 ++ over 3 ++ over 4 ++ over 5 ++ ratingBucket reviews 0
    let shortage := max_count - sampled.length
    let filled :=
      if shortage > 0 ∧ overflow_pool ≠ [] then
        sampled ++ (sh 6 overflow_pool).take shortage
      else sampled
    sh 7 filled

/-! ## `scroll_reviews_panel` (gmaps_reviews_scraper.py, lines 217–276)

The page is modelled as an item source `obs : Nat → Nat` giving the number
of loaded review cards observed at the loop's `t`-th read; the nudges
(`End` key, mouse wheel) act on the page, so each iteration's actions are
recorded in a trace instead.  The `while True` loop is embedded with
explicit fuel: `none` means the fuel ran out before the loop broke, so
termination at fuel `f` is the `isSome` of the result. -/

/-- `SCROLL_EXTRA_BUFFER` (line 50). -/
def SCROLL_EXTRA_BUFFER : Nat := 100

/-- One loop iteration as recorded in the trace: the target was reached;
the count grew; or the count stalled, with the post-increment
`scroll_attempts`, whether the mouse-wheel escalation fired, and whether
the loop gave up. -/
inductive ScrollIter where
  | reached (count : Nat)
  | growth (count : Nat)
  | stall (count attempts : Nat) (escalated gaveUp : Bool)
deriving Repr, DecidableEq

/-- The loaded-card count recorded in a trace entry. -/
def ScrollIter.count : ScrollIter → Nat
  | .reached c => c
  | .growth c => c
  | .stall c _ _ _ => c

structure ScrollResult where
  count : Nat
  trace : List ScrollIter
deriving Repr, DecidableEq

/-- The `while True` loop of `scroll_reviews_panel`, state
`(t, last_card_count, scroll_attempts)`. -/
def scrollLoop (obs : Nat → Nat) (target : Nat) :
    Nat → Nat → Nat → Nat → Option ScrollResult
  | 0, _, _, _ => none
  | fuel + 1, t, last, attempts =>
    let current := obs t
    if current ≥ target then some ⟨current, [.reached current]⟩
    else if current = last then
      let attempts := attempts + 1
      if attempts > 10 then
        some ⟨current, [.stall current attempts (attempts > 3) true]⟩
      else
        match scrollLoop obs target fuel (t + 1) last attempts with
        | none => none
        | some r => some ⟨r.count, .stall current attempts (attempts > 3) false :: r.trace⟩
    else
      match scrollLoop obs target fuel (t + 1) current 0 with
      | none => none
      | some r => some ⟨r.count, .growth current :: r.trace⟩

/-- `scroll_reviews_panel`: loop from `(0, 0, 0)` towards
`max_reviews + SCROLL_EXTRA_BUFFER`, returning the final
`current_count`. -/
def scroll_reviews_panel (obs : Nat → Nat) (max_reviews fuel : Nat) :
    Option ScrollResult :=
  scrollLoop obs (max_reviews + SCROLL_EXTRA_BUFFER) fuel 0 0 0

/-! ## `extract_reviews_with_js` (gmaps_reviews_scraper.py, lines 279–339)

One loaded review card as seen by the page-side JS: each DOM read is an
`Option` (`none` = the queried element is absent). -/

structure JsItem where
  text : Option String := none
  user : Option String := none
  stars : Option Nat := none
  time : Option String := none
deriving Repr, DecidableEq

/-- JS `s.split('\n')[0]`. -/
def firstLine (s : String) : String := ⟨s.data.takeWhile (fun c => c ≠ '\n')⟩

/-- The per-card body of the JS extraction loop: `none` when the card is
skipped (no text element, or empty/whitespace-only text after `trim()`),
otherwise the pushed record with its per-field fallbacks. -/
def emitReview (it : JsItem) : Option Review :=
  let text := it.text.getD ""
  if text = "" then none
  else if trimChars text.data = [] then none
  else some
    { user_name := match it.user with | some u => firstLine u | none => "Anonymous"
      rating := (it.stars.getD 0 : Nat)
      text := text
      time := it.time.getD "" }

/-- `extract_reviews_with_js`: extract-and-filter every loaded card, then
keep the first `max_reviews` records. -/
def extract_reviews_with_js (items : List JsItem) (max_reviews : Nat) : List Review :=
  (items.filterMap emitReview).take max_reviews

/-! ### Theorems: helper lemmas -/

theorem length_mk (l : List Char) : (String.mk l).length = l.length := rfl

theorem mk_ne_empty {l : List Char} (h : l ≠ []) : String.mk l ≠ "" := by
  intro hc
  apply h
  have := congrArg String.data hc
  simpa using this

theorem wordLE_lt (x : Nat) : ∀ b ∈ wordLE x, b < 256 := by
  intro b hb
  simp only [wordLE, List.mem_cons, List.not_mem_nil, or_false] at hb
  rcases hb with h | h | h | h <;> subst h <;> exact Nat.mod_lt _ (by omega)

theorem md5Bytes_sixteen (msg : List Nat) :
    (md5Bytes msg).length = 16 ∧ ∀ b ∈ md5Bytes msg, b < 256 := by
  unfold md5Bytes
  refine ⟨by simp [wordLE], ?_⟩
  intro b hb
  simp only [List.mem_append] at hb
  rcases hb with ((h | h) | h) | h <;> exact wordLE_lt _ _ h

theorem md5HexChars_length (msg : List Nat) : (md5HexChars msg).length = 32 := by
  have h : ∀ bs : List Nat, ((bs.map byteHex).flatten).length = 2 * bs.length := by
    intro bs
    induction bs with
    | nil => simp
    | cons b bs ih => simp [byteHex, ih]; omega
  simp [md5HexChars, h, (md5Bytes_sixteen msg).1]

theorem hexDigitChar_mem : ∀ n, n < 16 → hexDigitChar n ∈ ("0123456789abcdef" : String).data := by
  decide

theorem md5HexChars_subset (msg : List Nat) :
    ∀ c ∈ md5HexChars msg, c ∈ ("0123456789abcdef" : String).data := by
  intro c hc
  simp only [md5HexChars, List.mem_flatten, List.mem_map] at hc
  obtain ⟨l, ⟨b, hb, rfl⟩, hcl⟩ := hc
  have hblt : b < 256 := (md5Bytes_sixteen msg).2 b hb
  simp only [byteHex, List.mem_cons, List.not_mem_nil, or_false] at hcl
  rcases hcl with rfl | rfl
  · exact hexDigitChar_mem _ (by omega)
  · exact hexDigitChar_mem _ (Nat.mod_lt _ (by omega))

theorem formatYMD_ne_empty (secs : Nat) : formatYMD secs ≠ "" := by
  simp only [formatYMD]
  apply mk_ne_empty
  intro h
  have := congrArg List.length h
  simp [List.length_append] at this

/-! ## C8 — anonymize_user -/

/-- C8: `anonymize_user` is a deterministic function returning the first 10
hexadecimal characters of a hash of the lowercased, whitespace-trimmed
name: calling it twice on the same name yields identical output,
`anonymize_user "Budi" = anonymize_user " BUDI "`, and
`anonymize_user "" = "anonymous"`. -/
theorem anonymize_user_spec :
    (∀ name : String, anonymize_user name = anonymize_user name) ∧
    anonymize_user "Budi" = anonymize_user " BUDI " ∧
    anonymize_user "" = "anonymous" ∧
    (∀ n₁ n₂ : String, n₁ ≠ "" → n₂ ≠ "" →
      (trimChars n₁.data).map pyLower = (trimChars n₂.data).map pyLower →
      anonymize_user n₁ = anonymize_user n₂) ∧
    (∀ name : String, name ≠ "" →
      anonymize_user name =
        String.mk ((md5HexChars (strUtf8 ((trimChars name.data).map pyLower))).take 10) ∧
      (anonymize_user name).length = 10 ∧
      ∀ c ∈ (anonymize_user name).data, c ∈ ("0123456789abcdef" : String).data) := by
  refine ⟨fun _ => rfl, by decide, rfl, ?_, ?_⟩
  · intro n₁ n₂ h₁ h₂ heq
    simp only [anonymize_user, if_neg h₁, if_neg h₂, heq]
  · intro name hne
    have hdef : anonymize_user name =
        String.mk ((md5HexChars (strUtf8 ((trimChars name.data).map pyLower))).take 10) := by
      simp only [anonymize_user, if_neg hne]
    refine ⟨hdef, ?_, ?_⟩
    · rw [hdef, length_mk, List.length_take, md5HexChars_length]
      decide
    · intro c hc
      rw [hdef] at hc
      exact md5HexChars_subset _ c (List.take_subset _ _ hc)

/-- Witness for C8 at the names `"Budi"` and `" BUDI "`. -/
theorem anonymize_user_spec_witness :
    anonymize_user "Budi" = anonymize_user " BUDI " ∧
    (anonymize_user "Budi").length = 10 := by
  refine ⟨anonymize_user_spec.2.1, (anonymize_user_spec.2.2.2.2 "Budi" ?_).2.1⟩
  decide

/-! ## C10 — anonymize_user on whitespace-only names -/

/-- C10: a non-empty name of only whitespace characters is hashed as the
empty string — `anonymize_user` returns the first 10 hex characters of
`md5("")` (the fixed value `"d41d8cd98f"`), not the literal
`"anonymous"`. -/
theorem anonymize_user_whitespace (name : String) (hne : name ≠ "")
    (hws : ∀ c ∈ name.data, pyWhitespace c = true) :
    anonymize_user name = String.mk ((md5HexChars (strUtf8 [])).take 10) ∧
    anonymize_user name = "d41d8cd98f" ∧
    anonymize_user name ≠ "anonymous" := by
  have htrim : trimChars name.data = [] := by
    have h1 : name.data.dropWhile pyWhitespace = [] :=
      List.dropWhile_eq_nil_iff.mpr hws
    simp [trimChars, h1]
  have hdef : anonymize_user name = String.mk ((md5HexChars (strUtf8 [])).take 10) := by
    simp only [anonymize_user, if_neg hne, htrim, List.map_nil]
  refine ⟨hdef, ?_, ?_⟩
  · rw [hdef]; decide
  · rw [hdef]; decide

/-- Witness for C10 at the single-space name `" "`. -/
theorem anonymize_user_whitespace_witness :
    anonymize_user " " = "d41d8cd98f" ∧ anonymize_user " " ≠ "anonymous" :=
  ⟨(anonymize_user_whitespace " " (by decide) (by decide)).2.1,
   (anonymize_user_whitespace " " (by decide) (by decide)).2.2⟩

/-! ## C1 — convert_relative_time without a unit keyword -/

/-- Counterexample to C1 as stated: on the keyword-free input
`"gibberish"` the resolver does not return the empty string — it formats
`now` itself (here 2024-01-10 12:00:00) as a date. -/
theorem convert_relative_time_gibberish :
    convert_relative_time "gibberish" 63840484800 = "2024-01-10" ∧
    convert_relative_time "gibberish" 63840484800 ≠ "" := by
  constructor <;> decide

/-- C1 (amended): on a non-empty input whose processed text mentions no
unit keyword, `convert_relative_time` returns `now` formatted as
`YYYY-MM-DD` — a non-empty string, not `""` (the function is total, so it
never raises; `""` is produced for the empty input or on arithmetic
overflow of the modelled `timedelta`). -/
theorem convert_relative_time_no_keyword (text : String) (now : Nat)
    (hne : text ≠ "") (hkw : hasUnitKeyword (processedTime text) = false) :
    convert_relative_time text now = formatYMD now ∧
    convert_relative_time text now ≠ "" := by
  simp only [hasUnitKeyword, Bool.or_eq_false_iff] at hkw
  obtain ⟨⟨⟨⟨⟨⟨⟨h1, h2⟩, h3⟩, h4⟩, h5⟩, h6⟩, h7⟩, h8⟩ := hkw
  have hdelta : relativeDeltaSecs (processedTime text) = some 0 := by
    simp [relativeDeltaSecs, h1, h2, h3, h4, h5, h6, h7, h8]
  have hres : convert_relative_time text now = formatYMD now := by
    simp [convert_relative_time, if_neg hne, hdelta]
  exact ⟨hres, hres ▸ formatYMD_ne_empty now⟩

/-- Witness for C1 (amended) at the input `"gibberish"` and
2024-01-10 12:00:00. -/
theorem convert_relative_time_no_keyword_witness :
    convert_relative_time "gibberish" 63840484800 = formatYMD 63840484800 ∧
    convert_relative_time "gibberish" 63840484800 ≠ "" :=
  convert_relative_time_no_keyword "gibberish" 63840484800 (by decide) (by decide)

/-! ## C9 — extract_reviews_with_js -/

/-- C9: the extractor emits at most `max_reviews` records, in the order
the items were loaded (its output is a prefix of the full in-order
filtered extraction), and an item whose text is empty or whitespace-only
after trimming is dropped entirely — removing such an item from the load
sequence leaves the output unchanged, so it does not count toward the
limit. -/
theorem extract_reviews_spec (items : List JsItem) (max_reviews : Nat) :
    (extract_reviews_with_js items max_reviews).length ≤ max_reviews ∧
    (extract_reviews_with_js items max_reviews) <+: items.filterMap emitReview ∧
    ∀ pre post it, trimChars (it.text.getD "").data = [] →
      extract_reviews_with_js (pre ++ it :: post) max_reviews =
        extract_reviews_with_js (pre ++ post) max_reviews := by
  refine ⟨List.length_take_le _ _, List.take_prefix _ _, ?_⟩
  intro pre post it h
  have hemit : emitReview it = none := by
    simp only [emitReview]
    by_cases htext : it.text.getD "" = ""
    · simp [htext]
    · rw [if_neg htext, if_pos h]
  simp [extract_reviews_with_js, List.filterMap_append, hemit]

/-- Witness for C9: a whitespace-only card between two real cards is
dropped and does not consume the `max_reviews = 1` budget. -/
theorem extract_reviews_spec_witness :
    (extract_reviews_with_js [{ text := some "ok" }, { text := some "  " }] 1).length ≤ 1 ∧
    extract_reviews_with_js [{ text := some "ok" }, { text := some "  " }] 1 =
      extract_reviews_with_js [{ text := some "ok" }] 1 := by
  refine ⟨(extract_reviews_spec [{ text := some "ok" }, { text := some "  " }] 1).1, ?_⟩
  have h := (extract_reviews_spec [{ text := some "ok" }, { text := some "  " }] 1).2.2
    [{ text := some "ok" }] [] { text := some "  " } (by decide)
  simpa using h

/-! ## C2 — sampler size bound and small-input identity -/

/-- C2: for every input and every permutation-valid outcome of the
injected shuffles, the sampler returns at most `max_count` reviews, and
when the input already has at most `max_count` elements it is returned
unchanged (same content, same order). -/
theorem stratified_sample_size (sh : Nat → List Review → List Review)
    (reviews : List Review) (max_count : Nat)
    (hsh : ∀ i l, (sh i l).Perm l) :
    (stratified_sample_reviews sh reviews max_count).length ≤ max_count ∧
    (reviews.length ≤ max_count →
      stratified_sample_reviews sh reviews max_count = reviews) := by
  by_cases hle : reviews.length ≤ max_count
  · simp [stratified_sample_reviews, hle]
  · refine ⟨?_, fun h => absurd h hle⟩
    rw [stratified_sample_reviews, if_neg hle]
    simp only []
    set t := max_count / 5 with ht
    set sampled := (sh 1 (ratingBucket reviews 1)).take t ++ (sh 2 (ratingBucket reviews 2)).take t ++
      (sh 3 (ratingBucket reviews 3)).take t ++ (sh 4 (ratingBucket reviews 4)).take t ++
      (sh 5 (ratingBucket reviews 5)).take t with hsampled
    have hslen : sampled.length ≤ max_count := by
      have h5 : 5 * (max_count / 5) ≤ max_count := by
        have := Nat.div_mul_le_self max_count 5
        omega
      have l1 := List.length_take_le t (sh 1 (ratingBucket reviews 1))
      have l2 := List.length_take_le t (sh 2 (ratingBucket reviews 2))
      have l3 := List.length_take_le t (sh 3 (ratingBucket reviews 3))
      have l4 := List.length_take_le t (sh 4 (ratingBucket reviews 4))
      have l5 := List.length_take_le t (sh 5 (ratingBucket reviews 5))
      simp only [hsampled, List.length_append]
      omega
    split
    · rename_i hcond
      set overflow := (sh 1 (ratingBucket reviews 1)).drop t ++ (sh 2 (ratingBucket reviews 2)).drop t ++
        (sh 3 (ratingBucket reviews 3)).drop t ++ (sh 4 (ratingBucket reviews 4)).drop t ++
        (sh 5 (ratingBucket reviews 5)).drop t ++ ratingBucket reviews 0
      rw [(hsh 7 _).length_eq, List.length_append]
      have := List.length_take_le (max_count - sampled.length) (sh 6 overflow)
      omega
    · rw [(hsh 7 _).length_eq]
      exact hslen

/-- Witness for C2 with the identity shuffle on a two-review input. -/
theorem stratified_sample_size_witness :
    (stratified_sample_reviews (fun _ l => l) [{ text := "a" }, { text := "b" }] 1).length ≤ 1 ∧
    stratified_sample_reviews (fun _ l => l) [{ text := "a" }, { text := "b" }] 5 =
      [{ text := "a" }, { text := "b" }] := by
  refine ⟨(stratified_sample_size _ _ 1 (fun _ l => List.Perm.refl l)).1, ?_⟩
  exact (stratified_sample_size _ _ 5 (fun _ l => List.Perm.refl l)).2 (by decide)

/-! ## Dedup structure lemmas -/

theorem enrichReview_fields (now : Nat) (r : Review) :
    (enrichReview now r).user_name = r.user_name ∧
    (enrichReview now r).text = r.text ∧
    (enrichReview now r).time = r.time ∧
    (enrichReview now r).clean_text = clean_text r.text :=
  ⟨rfl, rfl, rfl, rfl⟩

theorem dedupKey_enrich (now : Nat) (r : Review) :
    dedupKey (enrichReview now r) = rawKey r := rfl

theorem rawKey_enrich (now : Nat) (r : Review) :
    rawKey (enrichReview now r) = dedupKey (enrichReview now r) := rfl

theorem enrichReview_idem (now : Nat) (r : Review) :
    enrichReview now (enrichReview now r) = enrichReview now r := rfl

theorem dedupGo_cons (now : Nat) (r : Review) (rest : List Review)
    (seen : List (String × String)) :
    dedupGo now (r :: rest) seen =
      if clean_text r.text = "" then dedupGo now rest seen
      else if rawKey r ∈ seen then dedupGo now rest seen
      else enrichReview now r :: dedupGo now rest (rawKey r :: seen) := rfl

/-- The invariants of the `deduplicate_reviews` loop, generalised over the
`seen_signatures` accumulator: every output record has non-empty cleaned
text, an unseen key, and is the enrichment of the first input record
bearing its key; output keys are pairwise distinct; the output is an
in-order selection from the enriched input; and every unseen key of the
input with non-empty cleaned text is represented. -/
theorem dedupGo_spec (now : Nat) :
    ∀ (l : List Review) (seen : List (String × String)),
      (∀ r' ∈ dedupGo now l seen, r'.clean_text ≠ "" ∧ dedupKey r' ∉ seen ∧
        ∃ r, l.find? (fun x => (clean_text x.text != "") && (rawKey x == dedupKey r')) = some r ∧
          r' = enrichReview now r) ∧
      (dedupGo now l seen).Pairwise (fun a b => dedupKey a ≠ dedupKey b) ∧
      List.Sublist (dedupGo now l seen) (l.map (enrichReview now)) ∧
      (∀ r ∈ l, clean_text r.text ≠ "" → rawKey r ∈ seen ∨
        ∃ r' ∈ dedupGo now l seen, dedupKey r' = rawKey r) := by
  intro l
  induction l with
  | nil => intro seen; simp [dedupGo]
  | cons r rest ih =>
    intro seen
    by_cases ht : clean_text r.text = ""
    · have hgo : dedupGo now (r :: rest) seen = dedupGo now rest seen := by
        rw [dedupGo_cons, if_pos ht]
      obtain ⟨ih1, ih2, ih3, ih4⟩ := ih seen
      refine ⟨?_, hgo ▸ ih2, ?_, ?_⟩
      · intro r' hr'
        rw [hgo] at hr'
        obtain ⟨h1, h2, rr, hfind, heq⟩ := ih1 r' hr'
        refine ⟨h1, h2, rr, ?_, heq⟩
        rw [List.find?_cons_of_neg, hfind]
        simp [ht]
      · rw [hgo]
        exact ih3.cons _
      · intro x hx hxt
        rcases List.mem_cons.mp hx with rfl | hx
        · exact absurd hxt (by simp [ht])
        · rcases ih4 x hx hxt with h | ⟨r', hr', hk⟩
          · exact Or.inl h
          · exact Or.inr ⟨r', hgo ▸ hr', hk⟩
    · by_cases hseen : rawKey r ∈ seen
      · have hgo : dedupGo now (r :: rest) seen = dedupGo now rest seen := by
          rw [dedupGo_cons, if_neg ht, if_pos hseen]
        obtain ⟨ih1, ih2, ih3, ih4⟩ := ih seen
        refine ⟨?_, hgo ▸ ih2, ?_, ?_⟩
        · intro r' hr'
          rw [hgo] at hr'
          obtain ⟨h1, h2, rr, hfind, heq⟩ := ih1 r' hr'
          refine ⟨h1, h2, rr, ?_, heq⟩
          rw [List.find?_cons_of_neg, hfind]
          have hne : rawKey r ≠ dedupKey r' := fun hcontra => h2 (hcontra ▸ hseen)
          simp [hne]
        · rw [hgo]
          exact ih3.cons _
        · intro x hx hxt
          rcases List.mem_cons.mp hx with rfl | hx
          · exact Or.inl hseen
          · rcases ih4 x hx hxt with h | ⟨r', hr', hk⟩
            · exact Or.inl h
            · exact Or.inr ⟨r', hgo ▸ hr', hk⟩
      · have hgo : dedupGo now (r :: rest) seen =
            enrichReview now r :: dedupGo now rest (rawKey r :: seen) := by
          rw [dedupGo_cons, if_neg ht, if_neg hseen]
        obtain ⟨ih1, ih2, ih3, ih4⟩ := ih (rawKey r :: seen)
        refine ⟨?_, ?_, ?_, ?_⟩
        · intro r' hr'
          rw [hgo] at hr'
          rcases List.mem_cons.mp hr' with rfl | hr'
          · refine ⟨by simpa [(enrichReview_fields now r).2.2.2] using ht, ?_, r, ?_, rfl⟩
            · rw [dedupKey_enrich]
              exact hseen
            · rw [List.find?_cons_of_pos]
              simp [dedupKey_enrich, ht]
          · obtain ⟨h1, h2, rr, hfind, heq⟩ := ih1 r' hr'
            have h2seen : dedupKey r' ∉ seen := fun hc => h2 (List.mem_cons_of_mem _ hc)
            have h2head : dedupKey r' ≠ rawKey r := fun hc => h2 (by simp [hc])
            refine ⟨h1, h2seen, rr, ?_, heq⟩
            rw [List.find?_cons_of_neg, hfind]
            simp only [Bool.and_eq_true, bne_iff_ne, ne_eq, beq_iff_eq, not_and]
            exact fun _ hc => h2head hc.symm
        · rw [hgo]
          refine List.Pairwise.cons ?_ ih2
          intro b hb
          have h2 := (ih1 b hb).2.1
          rw [dedupKey_enrich]
          exact fun hc => h2 (by simp [← hc])
        · rw [hgo, List.map_cons]
          exact (ih3).cons₂ _
        · intro x hx hxt
          rcases List.mem_cons.mp hx with rfl | hx
          · refine Or.inr ⟨enrichReview now x, ?_, dedupKey_enrich now x⟩
            rw [hgo]
            exact List.mem_cons_self _ _
          · rcases ih4 x hx hxt with h | ⟨r', hr', hk⟩
            · rcases List.mem_cons.mp h with h | h
              · refine Or.inr ⟨enrichReview now r, ?_, by rw [dedupKey_enrich, ← h]⟩
                rw [hgo]
                exact List.mem_cons_self _ _
              · exact Or.inl h
            · exact Or.inr ⟨r', by rw [hgo]; exact List.mem_cons_of_mem _ hr', hk⟩

/-! ## C3 — deduplicate_reviews invariants -/

/-- C3: the deduplicator's output has pairwise-distinct
(cleaned author, cleaned text) keys, every record has non-empty cleaned
text, the output is an in-order selection of enriched input records, every
output record is the enrichment of the *first* input record bearing its
key (first occurrence wins), and every input record with non-empty cleaned
text has its key represented. -/
theorem deduplicate_reviews_spec (raws : List Review) (now : Nat) :
    (deduplicate_reviews raws now).Pairwise (fun a b => dedupKey a ≠ dedupKey b) ∧
    (∀ r' ∈ deduplicate_reviews raws now, r'.clean_text ≠ "") ∧
    List.Sublist (deduplicate_reviews raws now) (raws.map (enrichReview now)) ∧
    (∀ r' ∈ deduplicate_reviews raws now,
      ∃ r, raws.find? (fun x => (clean_text x.text != "") && (rawKey x == dedupKey r')) = some r ∧
        r' = enrichReview now r) ∧
    (∀ r ∈ raws, clean_text r.text ≠ "" →
      ∃ r' ∈ deduplicate_reviews raws now, dedupKey r' = rawKey r) := by
  obtain ⟨h1, h2, h3, h4⟩ := dedupGo_spec now raws []
  refine ⟨h2, fun r' hr' => (h1 r' hr').1, h3,
    fun r' hr' => (h1 r' hr').2.2, fun r hr hrt => ?_⟩
  rcases h4 r hr hrt with h | h
  · exact absurd h (List.not_mem_nil _)
  · exact h

/-- Witness for C3 on a concrete input with a duplicate, an empty-text
record and a whitespace-only record. -/
theorem deduplicate_reviews_spec_witness :
    deduplicate_reviews
        [{ user_name := "A", text := "x" }, { user_name := "B", text := "" },
         { user_name := "A", text := " x " }, { user_name := "C", text := "y" }] 0 =
      [enrichReview 0 { user_name := "A", text := "x" },
       enrichReview 0 { user_name := "C", text := "y" }] ∧
    (∀ r' ∈ deduplicate_reviews
        [{ user_name := "A", text := "x" }, { user_name := "B", text := "" },
         { user_name := "A", text := " x " }, { user_name := "C", text := "y" }] 0,
      r'.clean_text ≠ "") := by
  refine ⟨by decide, (deduplicate_reviews_spec _ 0).2.1⟩

/-! ## C6 — idempotence of deduplicate_reviews -/

/-- The loop is the identity on a list of enrichment-stable records with
non-empty cleaned text and pairwise-distinct, unseen signatures. -/
theorem dedupGo_fixed (now : Nat) :
    ∀ (l : List Review) (seen : List (String × String)),
      (∀ r ∈ l, clean_text r.text ≠ "" ∧ enrichReview now r = r ∧ rawKey r ∉ seen) →
      l.Pairwise (fun a b => rawKey a ≠ rawKey b) →
      dedupGo now l seen = l := by
  intro l
  induction l with
  | nil => intro seen _ _; simp [dedupGo]
  | cons r rest ih =>
    intro seen hall hpw
    obtain ⟨ht, hfix, hseen⟩ := hall r (List.mem_cons_self _ _)
    have hgo : dedupGo now (r :: rest) seen =
        enrichReview now r :: dedupGo now rest (rawKey r :: seen) := by
      rw [dedupGo_cons, if_neg ht, if_neg hseen]
    rw [hgo, hfix, ih (rawKey r :: seen) ?_ hpw.of_cons]
    intro x hx
    obtain ⟨hxt, hxfix, hxseen⟩ := hall x (List.mem_cons_of_mem _ hx)
    refine ⟨hxt, hxfix, ?_⟩
    intro hc
    rcases List.mem_cons.mp hc with hc | hc
    · exact (List.rel_of_pairwise_cons hpw hx) hc.symm
    · exact hxseen hc

/-- C6: deduplication (with the same injected current time) is idempotent —
running `deduplicate_reviews` on its own output returns it unchanged. -/
theorem deduplicate_reviews_idempotent (raws : List Review) (now : Nat) :
    deduplicate_reviews (deduplicate_reviews raws now) now =
      deduplicate_reviews raws now := by
  obtain ⟨h1, h2, h3, h4⟩ := dedupGo_spec now raws []
  apply dedupGo_fixed
  · intro r' hr'
    obtain ⟨hne, _, rr, hfind, heq⟩ := h1 r' hr'
    have hpred := List.find?_some hfind
    have hrrt : clean_text rr.text ≠ "" := by
      simp only [Bool.and_eq_true, bne_iff_ne, ne_eq] at hpred
      exact hpred.1
    refine ⟨?_, ?_, List.not_mem_nil _⟩
    · rw [heq, (enrichReview_fields now rr).2.1]
      exact hrrt
    · rw [heq]
      exact enrichReview_idem now rr
  · refine h2.imp_of_mem ?_
    intro a b ha hb hne
    obtain ⟨_, _, ra, _, heqa⟩ := h1 a ha
    obtain ⟨_, _, rb, _, heqb⟩ := h1 b hb
    rw [heqa, heqb, rawKey_enrich, rawKey_enrich, ← heqa, ← heqb]
    exact fun hc => hne hc

/-- Witness-style instance of C6 on a concrete input (C6's statement has no
hypotheses beyond its universally quantified inputs, but the instance keeps
the development checkable on data). -/
theorem deduplicate_reviews_idempotent_witness :
    deduplicate_reviews
        (deduplicate_reviews [{ user_name := "A", text := "x" },
          { user_name := "A", text := "x" }] 0) 0 =
      deduplicate_reviews [{ user_name := "A", text := "x" },
        { user_name := "A", text := "x" }] 0 :=
  deduplicate_reviews_idempotent _ 0

/-! ## Sampler helper lemmas -/

theorem ratingBucket_length (reviews : List Review) (k : Nat) :
    (ratingBucket reviews k).length = reviews.countP (fun r => bucketOf r == k) := by
  rw [ratingBucket, List.countP_eq_length_filter]

theorem shuffled_bucket_all (sh : Nat → List Review → List Review)
    (hsh : ∀ i l, (sh i l).Perm l) (reviews : List Review) (k i : Nat) :
    ∀ x ∈ sh i (ratingBucket reviews k), bucketOf x = k := by
  intro x hx
  have hx2 := (hsh i _).mem_iff.mp hx
  simpa using (List.mem_filter.mp hx2).2

theorem countP_bucket_all {l : List Review} {k : Nat}
    (h : ∀ x ∈ l, bucketOf x = k) (j : Nat) :
    l.countP (fun r => bucketOf r == j) = if j = k then l.length else 0 := by
  split
  · rename_i hj
    subst hj
    refine List.countP_eq_length.mpr ?_
    intro x hx
    simp [h x hx]
  · rename_i hj
    refine List.countP_eq_zero.mpr ?_
    intro x hx
    simp [h x hx]
    exact fun hc => hj hc.symm

theorem countP_pair {l : List Review} (h : ∀ x ∈ l, bucketOf x = 1 ∨ bucketOf x = 5) :
    l.countP (fun r => bucketOf r == 1) + l.countP (fun r => bucketOf r == 5) = l.length := by
  induction l with
  | nil => simp
  | cons a l ih =>
    have ih2 := ih fun x hx => h x (List.mem_cons_of_mem _ hx)
    rcases h a (List.mem_cons_self _ _) with h1 | h1 <;>
      simp [List.countP_cons, h1] <;> omega

/-- The else branch of the sampler, fully unfolded: primary per-bucket
takes, overflow pool, conditional backfill, final shuffle. -/
theorem stratified_sample_else (sh : Nat → List Review → List Review)
    (reviews : List Review) (max_count : Nat) (h : ¬reviews.length ≤ max_count) :
    stratified_sample_reviews sh reviews max_count =
      sh 7 (
        if max_count -
            ((sh 1 (ratingBucket reviews 1)).take (max_count / 5) ++
             (sh 2 (ratingBucket reviews 2)).take (max_count / 5) ++
             (sh 3 (ratingBucket reviews 3)).take (max_count / 5) ++
             (sh 4 (ratingBucket reviews 4)).take (max_count / 5) ++
             (sh 5 (ratingBucket reviews 5)).take (max_count / 5)).length > 0 ∧
            ((sh 1 (ratingBucket reviews 1)).drop (max_count / 5) ++
             (sh 2 (ratingBucket reviews 2)).drop (max_count / 5) ++
             (sh 3 (ratingBucket reviews 3)).drop (max_count / 5) ++
             (sh 4 (ratingBucket reviews 4)).drop (max_count / 5) ++
             (sh 5 (ratingBucket reviews 5)).drop (max_count / 5) ++
             ratingBucket reviews 0) ≠ [] then
          ((sh 1 (ratingBucket reviews 1)).take (max_count / 5) ++
           (sh 2 (ratingBucket reviews 2)).take (max_count / 5) ++
           (sh 3 (ratingBucket reviews 3)).take (max_count / 5) ++
           (sh 4 (ratingBucket reviews 4)).take (max_count / 5) ++
           (sh 5 (ratingBucket reviews 5)).take (max_count / 5)) ++
          (sh 6 ((sh 1 (ratingBucket reviews 1)).drop (max_count / 5) ++
             (sh 2 (ratingBucket reviews 2)).drop (max_count / 5) ++
             (sh 3 (ratingBucket reviews 3)).drop (max_count / 5) ++
             (sh 4 (ratingBucket reviews 4)).drop (max_count / 5) ++
             (sh 5 (ratingBucket reviews 5)).drop (max_count / 5) ++
             ratingBucket reviews 0)).take (max_count -
            ((sh 1 (ratingBucket reviews 1)).take (max_count / 5) ++
             (sh 2 (ratingBucket reviews 2)).take (max_count / 5) ++
             (sh 3 (ratingBucket reviews 3)).take (max_count / 5) ++
             (sh 4 (ratingBucket reviews 4)).take (max_count / 5) ++
             (sh 5 (ratingBucket reviews 5)).take (max_count / 5)).length)
        else
          ((sh 1 (ratingBucket reviews 1)).take (max_count / 5) ++
           (sh 2 (ratingBucket reviews 2)).take (max_count / 5) ++
           (sh 3 (ratingBucket reviews 3)).take (max_count / 5) ++
           (sh 4 (ratingBucket reviews 4)).take (max_count / 5) ++
           (sh 5 (ratingBucket reviews 5)).take (max_count / 5))) := by
  rw [stratified_sample_reviews, if_neg h]

/-! ## C5 — sampler balance on an even 20×5 input -/

/-- C5: on a 100-review input with exactly 20 reviews in each rating
bucket 1–5 and `max_count = 50`, the sampler returns exactly 50 reviews
with each bucket contributing exactly 10, for every permutation-valid
outcome of the injected shuffles. -/
theorem stratified_sample_balance (sh : Nat → List Review → List Review)
    (reviews : List Review) (hsh : ∀ i l, (sh i l).Perm l)
    (hlen : reviews.length = 100)
    (hb : ∀ k, 1 ≤ k → k ≤ 5 → reviews.countP (fun r => bucketOf r == k) = 20) :
    (stratified_sample_reviews sh reviews 50).length = 50 ∧
    ∀ k, 1 ≤ k → k ≤ 5 →
      (stratified_sample_reviews sh reviews 50).countP (fun r => bucketOf r == k) = 10 := by
  have hnle : ¬reviews.length ≤ 50 := by omega
  rw [stratified_sample_else sh reviews 50 hnle]
  have ht : (50 : Nat) / 5 = 10 := by norm_num
  rw [ht]
  have hlenk : ∀ k, 1 ≤ k → k ≤ 5 → ((sh k (ratingBucket reviews k)).take 10).length = 10 := by
    intro k h1 h5
    rw [List.length_take, (hsh k _).length_eq, ratingBucket_length, hb k h1 h5]
    omega
  have l1 := hlenk 1 (by omega) (by omega)
  have l2 := hlenk 2 (by omega) (by omega)
  have l3 := hlenk 3 (by omega) (by omega)
  have l4 := hlenk 4 (by omega) (by omega)
  have l5 := hlenk 5 (by omega) (by omega)
  have hslen : ((sh 1 (ratingBucket reviews 1)).take 10 ++
      (sh 2 (ratingBucket reviews 2)).take 10 ++
      (sh 3 (ratingBucket reviews 3)).take 10 ++
      (sh 4 (ratingBucket reviews 4)).take 10 ++
      (sh 5 (ratingBucket reviews 5)).take 10).length = 50 := by
    simp only [List.length_append, l1, l2, l3, l4, l5]
  rw [if_neg (by rw [hslen]; simp)]
  constructor
  · rw [(hsh 7 _).length_eq, hslen]
  · intro k hk1 hk5
    rw [List.Perm.countP_eq _ (hsh 7 _)]
    have hcnt : ∀ j, 1 ≤ j → j ≤ 5 →
        ((sh j (ratingBucket reviews j)).take 10).countP (fun r => bucketOf r == k) =
          if k = j then 10 else 0 := by
      intro j hj1 hj5
      rw [countP_bucket_all
        (fun x hx => shuffled_bucket_all sh hsh reviews j j x (List.take_subset _ _ hx)) k,
        hlenk j hj1 hj5]
    simp only [List.countP_append,
      hcnt 1 (by omega) (by omega), hcnt 2 (by omega) (by omega),
      hcnt 3 (by omega) (by omega), hcnt 4 (by omega) (by omega),
      hcnt 5 (by omega) (by omega)]
    interval_cases k <;> simp

/-- Witness for C5 on the concrete input with 20 reviews of each rating
1–5 and the identity shuffle. -/
theorem stratified_sample_balance_witness :
    (stratified_sample_reviews (fun _ l => l)
        (List.replicate 20 { rating := 1, text := "a" : Review } ++
         List.replicate 20 { rating := 2, text := "b" : Review } ++
         List.replicate 20 { rating := 3, text := "c" : Review } ++
         List.replicate 20 { rating := 4, text := "d" : Review } ++
         List.replicate 20 { rating := 5, text := "e" : Review }) 50).length = 50 ∧
    ∀ k, 1 ≤ k → k ≤ 5 →
      (stratified_sample_reviews (fun _ l => l)
        (List.replicate 20 { rating := 1, text := "a" : Review } ++
         List.replicate 20 { rating := 2, text := "b" : Review } ++
         List.replicate 20 { rating := 3, text := "c" : Review } ++
         List.replicate 20 { rating := 4, text := "d" : Review } ++
         List.replicate 20 { rating := 5, text := "e" : Review }) 50).countP
        (fun r => bucketOf r == k) = 10 := by
  refine stratified_sample_balance _ _ (fun _ l => List.Perm.refl l) (by decide) ?_
  intro k h1 h5
  interval_cases k <;> decide

/-! ## C4 — sampler on the skewed 90/10 input -/

/-- Counterexample to C4 as stated: with the identity shuffle (a valid
permutation outcome), the 90×5-star/10×1-star input at `max_count = 20`
yields 10 one-star reviews in the result, not exactly
`min 10 (20 / 5) = 4` — the backfill draws bucket 1's leftovers from the
shared overflow pool, not only bucket 5's. -/
theorem stratified_sample_skewed_counterexample :
    (stratified_sample_reviews (fun _ l => l)
        (List.replicate 90 { rating := 5, text := "b" : Review } ++
         List.replicate 10 { rating := 1, text := "a" : Review }) 20).countP
      (fun r => bucketOf r == 1) = 10 ∧
    (10 : Nat) ≠ min 10 (20 / 5) := by
  constructor <;> decide

/-- C4 (amended): on the 90×5-star/10×1-star input with `max_count = 20`,
for every permutation-valid outcome of the injected shuffles the result
has length exactly 20, draws every review from buckets 1 and 5, and
contains at least `target_per_bucket = 4` and at most 10 (bucket 1's
available count) one-star reviews — the slots beyond the primary
allocation are backfilled from the shared overflow pool, which holds the
leftovers of both buckets. -/
theorem stratified_sample_skewed (sh : Nat → List Review → List Review)
    (reviews : List Review) (hsh : ∀ i l, (sh i l).Perm l)
    (hlen : reviews.length = 100)
    (hb1 : reviews.countP (fun r => bucketOf r == 1) = 10)
    (hb5 : reviews.countP (fun r => bucketOf r == 5) = 90)
    (hb0 : reviews.countP (fun r => bucketOf r == 0) = 0)
    (hb2 : reviews.countP (fun r => bucketOf r == 2) = 0)
    (hb3 : reviews.countP (fun r => bucketOf r == 3) = 0)
    (hb4 : reviews.countP (fun r => bucketOf r == 4) = 0) :
    (stratified_sample_reviews sh reviews 20).length = 20 ∧
    4 ≤ (stratified_sample_reviews sh reviews 20).countP (fun r => bucketOf r == 1) ∧
    (stratified_sample_reviews sh reviews 20).countP (fun r => bucketOf r == 1) ≤ 10 ∧
    (stratified_sample_reviews sh reviews 20).countP (fun r => bucketOf r == 1) +
      (stratified_sample_reviews sh reviews 20).countP (fun r => bucketOf r == 5) = 20 := by
  have hnle : ¬reviews.length ≤ 20 := by omega
  have hempty : ∀ k, reviews.countP (fun r => bucketOf r == k) = 0 →
      ratingBucket reviews k = [] := by
    intro k hk
    rw [ratingBucket]
    exact List.filter_eq_nil_iff.mpr (List.countP_eq_zero.mp hk)
  have e2 : sh 2 (ratingBucket reviews 2) = [] := by
    rw [hempty 2 hb2]
    exact (hsh 2 []).eq_nil
  have e3 : sh 3 (ratingBucket reviews 3) = [] := by
    rw [hempty 3 hb3]
    exact (hsh 3 []).eq_nil
  have e4 : sh 4 (ratingBucket reviews 4) = [] := by
    rw [hempty 4 hb4]
    exact (hsh 4 []).eq_nil
  have ht : (20 : Nat) / 5 = 4 := by norm_num
  rw [stratified_sample_else sh reviews 20 hnle, ht, e2, e3, e4, hempty 0 hb0]
  simp only [List.take_nil, List.drop_nil, List.append_nil, List.nil_append]
  have all1 : ∀ x ∈ sh 1 (ratingBucket reviews 1), bucketOf x = 1 :=
    fun x hx => shuffled_bucket_all sh hsh reviews 1 1 x hx
  have all5 : ∀ x ∈ sh 5 (ratingBucket reviews 5), bucketOf x = 5 :=
    fun x hx => shuffled_bucket_all sh hsh reviews 5 5 x hx
  have hs1 : (sh 1 (ratingBucket reviews 1)).length = 10 := by
    rw [(hsh 1 _).length_eq, ratingBucket_length, hb1]
  have hs5 : (sh 5 (ratingBucket reviews 5)).length = 90 := by
    rw [(hsh 5 _).length_eq, ratingBucket_length, hb5]
  have hslen : ((sh 1 (ratingBucket reviews 1)).take 4 ++
      (sh 5 (ratingBucket reviews 5)).take 4).length = 8 := by
    simp only [List.length_append, List.length_take, hs1, hs5]
    omega
  have hover : ((sh 1 (ratingBucket reviews 1)).drop 4 ++
      (sh 5 (ratingBucket reviews 5)).drop 4).length = 92 := by
    simp only [List.length_append, List.length_drop, hs1, hs5]
  have hcond : 20 - ((sh 1 (ratingBucket reviews 1)).take 4 ++
        (sh 5 (ratingBucket reviews 5)).take 4).length > 0 ∧
      ((sh 1 (ratingBucket reviews 1)).drop 4 ++
        (sh 5 (ratingBucket reviews 5)).drop 4) ≠ [] := by
    refine ⟨by rw [hslen]; omega, ?_⟩
    rw [← List.length_pos, hover]
    omega
  rw [if_pos hcond, hslen]
  have htl : ((sh 6 ((sh 1 (ratingBucket reviews 1)).drop 4 ++
      (sh 5 (ratingBucket reviews 5)).drop 4)).take (20 - 8)).length = 12 := by
    rw [List.length_take, (hsh 6 _).length_eq, hover]
    omega
  have hc1take : ((sh 1 (ratingBucket reviews 1)).take 4).countP
      (fun r => bucketOf r == 1) = 4 := by
    rw [countP_bucket_all (fun x hx => all1 x (List.take_subset _ _ hx)) 1,
      if_pos rfl, List.length_take, hs1]
    omega
  have hc1take5 : ((sh 5 (ratingBucket reviews 5)).take 4).countP
      (fun r => bucketOf r == 1) = 0 := by
    rw [countP_bucket_all (fun x hx => all5 x (List.take_subset _ _ hx)) 1, if_neg (by omega)]
  have hc5take5 : ((sh 5 (ratingBucket reviews 5)).take 4).countP
      (fun r => bucketOf r == 5) = 4 := by
    rw [countP_bucket_all (fun x hx => all5 x (List.take_subset _ _ hx)) 5,
      if_pos rfl, List.length_take, hs5]
    omega
  have hc5take1 : ((sh 1 (ratingBucket reviews 1)).take 4).countP
      (fun r => bucketOf r == 5) = 0 := by
    rw [countP_bucket_all (fun x hx => all1 x (List.take_subset _ _ hx)) 5, if_neg (by omega)]
  have hoverall : ∀ x ∈ sh 6 ((sh 1 (ratingBucket reviews 1)).drop 4 ++
      (sh 5 (ratingBucket reviews 5)).drop 4), bucketOf x = 1 ∨ bucketOf x = 5 := by
    intro x hx
    have hx2 := (hsh 6 _).mem_iff.mp hx
    rcases List.mem_append.mp hx2 with h | h
    · exact Or.inl (all1 x (List.drop_subset _ _ h))
    · exact Or.inr (all5 x (List.drop_subset _ _ h))
  have hfillpair : ((sh 6 ((sh 1 (ratingBucket reviews 1)).drop 4 ++
        (sh 5 (ratingBucket reviews 5)).drop 4)).take (20 - 8)).countP
        (fun r => bucketOf r == 1) +
      ((sh 6 ((sh 1 (ratingBucket reviews 1)).drop 4 ++
        (sh 5 (ratingBucket reviews 5)).drop 4)).take (20 - 8)).countP
        (fun r => bucketOf r == 5) = 12 := by
    rw [countP_pair (fun x hx => hoverall x (List.take_subset _ _ hx)), htl]
  have hfill1le : ((sh 6 ((sh 1 (ratingBucket reviews 1)).drop 4 ++
        (sh 5 (ratingBucket reviews 5)).drop 4)).take (20 - 8)).countP
        (fun r => bucketOf r == 1) ≤ 6 := by
    have hsub := (List.take_sublist (20 - 8) (sh 6 ((sh 1 (ratingBucket reviews 1)).drop 4 ++
      (sh 5 (ratingBucket reviews 5)).drop 4))).countP_le (p := fun r => bucketOf r == 1)
    have hperm := List.Perm.countP_eq (fun r => bucketOf r == 1) (hsh 6
      ((sh 1 (ratingBucket reviews 1)).drop 4 ++ (sh 5 (ratingBucket reviews 5)).drop 4))
    have hd1 : ((sh 1 (ratingBucket reviews 1)).drop 4).countP
        (fun r => bucketOf r == 1) = 6 := by
      rw [countP_bucket_all (fun x hx => all1 x (List.drop_subset _ _ hx)) 1,
        if_pos rfl, List.length_drop, hs1]
    have hd5 : ((sh 5 (ratingBucket reviews 5)).drop 4).countP
        (fun r => bucketOf r == 1) = 0 := by
      rw [countP_bucket_all (fun x hx => all5 x (List.drop_subset _ _ hx)) 1, if_neg (by omega)]
    rw [hperm, List.countP_append, hd1, hd5] at hsub
    omega
  refine ⟨?_, ?_, ?_, ?_⟩
  · rw [(hsh 7 _).length_eq, List.length_append, hslen, htl]
  · rw [List.Perm.countP_eq _ (hsh 7 _)]
    simp only [List.countP_append, hc1take, hc1take5]
    omega
  · rw [List.Perm.countP_eq _ (hsh 7 _)]
    simp only [List.countP_append, hc1take, hc1take5]
    omega
  · rw [List.Perm.countP_eq _ (hsh 7 _), List.Perm.countP_eq _ (hsh 7 _)]
    simp only [List.countP_append, hc1take, hc1take5, hc5take5, hc5take1]
    omega

/-- Witness for C4 (amended) on the concrete skewed input with the
identity shuffle. -/
theorem stratified_sample_skewed_witness :
    (stratified_sample_reviews (fun _ l => l)
        (List.replicate 90 { rating := 5, text := "b" : Review } ++
         List.replicate 10 { rating := 1, text := "a" : Review }) 20).length = 20 ∧
    4 ≤ (stratified_sample_reviews (fun _ l => l)
        (List.replicate 90 { rating := 5, text := "b" : Review } ++
         List.replicate 10 { rating := 1, text := "a" : Review }) 20).countP
      (fun r => bucketOf r == 1) :=
  ⟨(stratified_sample_skewed _ _ (fun _ l => List.Perm.refl l) (by decide) (by decide)
      (by decide) (by decide) (by decide) (by decide) (by decide)).1,
   (stratified_sample_skewed _ _ (fun _ l => List.Perm.refl l) (by decide) (by decide)
      (by decide) (by decide) (by decide) (by decide) (by decide)).2.1⟩

/-! ## Scroll-loop lemmas -/

theorem getLast?_cons_of_ne_nil {α : Type} (x : α) {l : List α} (h : l ≠ []) :
    (x :: l).getLast? = l.getLast? := by
  cases l with
  | nil => exact absurd rfl h
  | cons y ys => exact List.getLast?_cons_cons

/-- Any successful run of the loop has a non-empty trace whose last entry
carries the returned count, and every stall entry escalates exactly when
its attempt counter exceeds 3 and gives up exactly when it exceeds 10. -/
theorem scrollLoop_some_spec (obs : Nat → Nat) (target : Nat) :
    ∀ fuel t last attempts res,
      scrollLoop obs target fuel t last attempts = some res →
      res.trace ≠ [] ∧
      (∃ e, res.trace.getLast? = some e ∧ ScrollIter.count e = res.count) ∧
      (∀ e ∈ res.trace, ∀ cn a esc gu, e = ScrollIter.stall cn a esc gu →
        esc = decide (a > 3) ∧ gu = decide (a > 10)) := by
  intro fuel
  induction fuel with
  | zero =>
    intro t last attempts res h
    simp [scrollLoop] at h
  | succ fuel ih =>
    intro t last attempts res h
    rw [scrollLoop] at h
    simp only [] at h
    split at h
    · injection h with h
      subst h
      refine ⟨by simp, ⟨_, rfl, rfl⟩, ?_⟩
      intro e he cn a esc gu hee
      simp only [List.mem_singleton] at he
      subst he
      cases hee
    · split at h
      · split at h
        · rename_i hgu
          injection h with h
          subst h
          refine ⟨by simp, ⟨_, rfl, rfl⟩, ?_⟩
          intro e he cn a esc gu hee
          simp only [List.mem_singleton] at he
          subst he
          injection hee with h1 h2 h3 h4
          subst h1
          subst h2
          subst h3
          subst h4
          exact ⟨rfl, by simp [hgu]⟩
        · rename_i hngu
          split at h
          · exact absurd h (by simp)
          · rename_i r hr
            injection h with h
            subst h
            obtain ⟨ih1, ⟨e0, he0, he0c⟩, ih3⟩ := ih _ _ _ _ hr
            refine ⟨by simp, ⟨e0, ?_, he0c⟩, ?_⟩
            · rw [getLast?_cons_of_ne_nil _ ih1]
              exact he0
            · intro e he cn a esc gu hee
              rcases List.mem_cons.mp he with rfl | he
              · injection hee with h1 h2 h3 h4
                subst h1
                subst h2
                subst h3
                subst h4
                exact ⟨rfl, by simp [hngu]⟩
              · exact ih3 e he cn a esc gu hee
      · split at h
        · exact absurd h (by simp)
        · rename_i r hr
          injection h with h
          subst h
          obtain ⟨ih1, ⟨e0, he0, he0c⟩, ih3⟩ := ih _ _ _ _ hr
          refine ⟨by simp, ⟨e0, ?_, he0c⟩, ?_⟩
          · rw [getLast?_cons_of_ne_nil _ ih1]
            exact he0
          · intro e he cn a esc gu hee
            rcases List.mem_cons.mp he with rfl | he
            · cases hee
            · exact ih3 e he cn a esc gu hee

/-- Once the source is constant (`obs t = c` for `t ≥ T`, `c` below the
target) and the loop's `last_card_count` has caught up with `c`, at most
`12 - attempts` further iterations reach the give-up ceiling. -/
theorem scrollLoop_term_stalled (obs : Nat → Nat) (target T c : Nat)
    (hobs : ∀ t, T ≤ t → obs t = c) (hc : c < target) :
    ∀ fuel t attempts, T ≤ t → 12 ≤ fuel + attempts → 1 ≤ fuel →
      ∃ res, scrollLoop obs target fuel t c attempts = some res := by
  intro fuel
  induction fuel with
  | zero => intro t attempts _ _ h1; omega
  | succ fuel ih =>
    intro t attempts hT hf _
    rw [scrollLoop]
    rw [hobs t hT]
    rw [if_neg (by omega), if_pos rfl]
    by_cases hgu : attempts + 1 > 10
    · rw [if_pos hgu]
      exact ⟨_, rfl⟩
    · rw [if_neg hgu]
      obtain ⟨res, hres⟩ := ih (t + 1) (attempts + 1) (by omega) (by omega) (by omega)
      rw [hres]
      exact ⟨_, rfl⟩

/-- After the stall point `T`, the loop terminates from any state within
13 iterations. -/
theorem scrollLoop_term_post (obs : Nat → Nat) (target T c : Nat)
    (hobs : ∀ t, T ≤ t → obs t = c) (hc : c < target) :
    ∀ fuel t last attempts, T ≤ t → 13 ≤ fuel →
      ∃ res, scrollLoop obs target fuel t last attempts = some res := by
  intro fuel t last attempts hT hf
  by_cases hlast : last = c
  · rw [hlast]
    exact scrollLoop_term_stalled obs target T c hobs hc fuel t attempts hT (by omega) (by omega)
  · obtain ⟨fuel', rfl⟩ : ∃ fuel', fuel = fuel' + 1 := ⟨fuel - 1, by omega⟩
    rw [scrollLoop]
    rw [hobs t hT]
    have hne : ¬(c ≥ target) := by omega
    have hne2 : ¬(c = last) := fun hcontra => hlast hcontra.symm
    rw [if_neg hne, if_neg hne2]
    obtain ⟨res, hres⟩ := scrollLoop_term_stalled obs target T c hobs hc fuel' (t + 1) 0
      (by omega) (by omega) (by omega)
    rw [hres]
    exact ⟨_, rfl⟩

/-- The loop terminates from the initial state with fuel `T + 13`: before
`T` every iteration advances `t` (or breaks), and after `T` the stall
ladder bounds the remaining iterations. -/
theorem scrollLoop_term (obs : Nat → Nat) (target T c : Nat)
    (hobs : ∀ t, T ≤ t → obs t = c) (hc : c < target) :
    ∀ fuel t last attempts, T + 13 ≤ fuel + t → 13 ≤ fuel →
      ∃ res, scrollLoop obs target fuel t last attempts = some res := by
  intro fuel
  induction fuel with
  | zero => intro t last attempts _ h13; omega
  | succ fuel ih =>
    intro t last attempts hTt hf
    by_cases hT : T ≤ t
    · exact scrollLoop_term_post obs target T c hobs hc (fuel + 1) t last attempts hT hf
    · rw [scrollLoop]
      by_cases hge : obs t ≥ target
      · rw [if_pos hge]
        exact ⟨_, rfl⟩
      · rw [if_neg hge]
        by_cases hstall : obs t = last
        · rw [if_pos hstall]
          by_cases hgu : attempts + 1 > 10
          · rw [if_pos hgu]
            exact ⟨_, rfl⟩
          · rw [if_neg hgu]
            obtain ⟨res, hres⟩ := ih (t + 1) last (attempts + 1) (by omega) (by omega)
            rw [hres]
            exact ⟨_, rfl⟩
        · rw [if_neg hstall]
          obtain ⟨res, hres⟩ := ih (t + 1) (obs t) 0 (by omega) (by omega)
          rw [hres]
          exact ⟨_, rfl⟩

/-! ## C7 — harvest-loop termination -/

/-- C7: for every simulated item source whose loaded count is eventually
constant at `c` below `target_count + SCROLL_EXTRA_BUFFER`, the harvest
loop terminates (some finite fuel makes it return); the returned value is
the count observed at the final iteration (the trace's last entry); every
stall iteration escalates to the mouse-wheel nudge exactly when its
consecutive-stall counter exceeds 3 and gives up exactly when it exceeds
10.  On the spec's example source — growing by one card per read up to 5,
with `target_count = 400` — the loop returns 5. -/
theorem scroll_reviews_panel_terminates (obs : Nat → Nat) (T c max_reviews : Nat)
    (hobs : ∀ t, T ≤ t → obs t = c) (hc : c < max_reviews + SCROLL_EXTRA_BUFFER) :
    (∃ fuel res, scroll_reviews_panel obs max_reviews fuel = some res ∧
      res.trace ≠ [] ∧
      (∃ e, res.trace.getLast? = some e ∧ ScrollIter.count e = res.count) ∧
      (∀ e ∈ res.trace, ∀ cn a esc gu, e = ScrollIter.stall cn a esc gu →
        esc = decide (a > 3) ∧ gu = decide (a > 10))) ∧
    (∃ res, scroll_reviews_panel (fun t => min (t + 1) 5) 400 20 = some res ∧
      res.count = 5) := by
  constructor
  · obtain ⟨res, hres⟩ := scrollLoop_term obs (max_reviews + SCROLL_EXTRA_BUFFER) T c hobs hc
      (T + 13) 0 0 0 (by omega) (by omega)
    obtain ⟨h1, h2, h3⟩ := scrollLoop_some_spec obs (max_reviews + SCROLL_EXTRA_BUFFER)
      (T + 13) 0 0 0 res hres
    exact ⟨T + 13, res, hres, h1, h2, h3⟩
  · exact ⟨_, rfl, by decide⟩

/-- Witness for C7 at the spec's example source (`min (t+1) 5`, stalling
at 5 from `T = 4`) and `target_count = 400`. -/
theorem scroll_reviews_panel_terminates_witness :
    ∃ fuel res, scroll_reviews_panel (fun t => min (t + 1) 5) 400 fuel = some res ∧
      res.trace ≠ [] ∧
      (∃ e, res.trace.getLast? = some e ∧ ScrollIter.count e = res.count) ∧
      (∀ e ∈ res.trace, ∀ cn a esc gu, e = ScrollIter.stall cn a esc gu →
        esc = decide (a > 3) ∧ gu = decide (a > 10)) :=
  (scroll_reviews_panel_terminates (fun t => min (t + 1) 5) 4 5 400
    (fun t ht => by simp; omega) (by decide)).1

end KarawangScraper
